import Mathlib

/-
Verification of the declarative element/field model of python-drafthorse
(src/drafthorse/models/elements.py): the bidirectional codec between an
in-memory object graph of schema-typed elements and a namespace-qualified
document tree.  Python values that flow through the codec (str, int,
Decimal, date, bool, None) are modelled by the PyVal type; document tree
nodes by XNode; the element classes of elements.py by LeafVal (the leaf
subclasses of StringElement) and Elem (the generic Element class).
Parts of the repository that elements.py imports but that are not in src
(drafthorse/models/fields.py, container.py, utils.py, models/__init__.py)
are modelled from the spec and marked as such in their doc comments.
-/

/-- Exact-precision decimal model for the standard library Decimal class:
sign, coefficient and exponent, so that trailing zeros are preserved
(Decimal of the string 12.50 has coefficient 1250 and exponent -2). -/
structure PyDecimal where
  neg : Bool
  coeff : Nat
  exp : Int
deriving DecidableEq, Repr

/-- Numeric value of a list of decimal digit characters. -/
def digitsToNat (l : List Char) : Nat :=
  l.foldl (fun n c => 10 * n + (c.toNat - 48)) 0

/-- Parse an unsigned decimal literal: digits with an optional single
point, at least one digit in total; returns the coefficient digits and
the number of fraction digits. -/
def decParseUnsigned (l : List Char) : Option (Nat × Nat) :=
  let intPart := l.takeWhile Char.isDigit
  let rest := l.dropWhile Char.isDigit
  match rest with
  | [] => if intPart.isEmpty then Option.none else some (digitsToNat intPart, 0)
  | '.' :: frac =>
      if frac.all Char.isDigit && !(intPart.isEmpty && frac.isEmpty) then
        some (digitsToNat (intPart ++ frac), frac.length)
      else Option.none
  | _ => Option.none

/-- Model of constructing a Decimal from a string: an optional sign
followed by an unsigned decimal literal.  Returns none where the library
constructor raises InvalidOperation.  Exotic accepted spellings of the
library (exponent notation, NaN, infinities, surrounding whitespace) are
not modelled; no value handled by the codec uses them. -/
def decParse (s : String) : Option PyDecimal :=
  match s.toList with
  | '-' :: rest => (decParseUnsigned rest).map (fun p => ⟨true, p.1, -(p.2 : Int)⟩)
  | '+' :: rest => (decParseUnsigned rest).map (fun p => ⟨false, p.1, -(p.2 : Int)⟩)
  | l => (decParseUnsigned l).map (fun p => ⟨false, p.1, -(p.2 : Int)⟩)

/-- Model of str applied to a Decimal, in plain notation: the coefficient
digits with the decimal point inserted according to the exponent.  The
scientific notation the library switches to for positive exponents or very
small adjusted exponents is not modelled; every decimal produced by
decParse has a nonpositive exponent larger than the threshold. -/
def decToString (d : PyDecimal) : String :=
  let sign := if d.neg then "-" else ""
  if d.exp ≥ 0 then
    sign ++ toString d.coeff ++ String.mk (List.replicate d.exp.toNat '0')
  else
    let k := (-d.exp).toNat
    let ds := (toString d.coeff).toList
    let ds := if ds.length ≤ k then List.replicate (k + 1 - ds.length) '0' ++ ds else ds
    sign ++ String.mk (ds.take (ds.length - k)) ++ "." ++ String.mk (ds.drop (ds.length - k))

/-- Calendar date model for datetime.date. -/
structure PyDate where
  year : Nat
  month : Nat
  day : Nat
deriving DecidableEq, Repr

/-- Left-pad the decimal digits of a number with zeros to a width. -/
def padNum (w n : Nat) : String :=
  let s := toString n
  if s.length < w then String.mk (List.replicate (w - s.length) '0') ++ s else s

/-- Model of date.strftime with format string Y m d (no separators), as
used by DateTimeElement.to_etree: four-digit year, two-digit month and
two-digit day. -/
def dateStrftimeYmd (d : PyDate) : String :=
  padNum 4 d.year ++ padNum 2 d.month ++ padNum 2 d.day

/-- Gregorian leap year test. -/
def isLeapYear (y : Nat) : Bool :=
  (y % 4 == 0 && y % 100 != 0) || (y % 400 == 0)

/-- Number of days in a month. -/
def daysInMonth (y m : Nat) : Nat :=
  if m == 2 then (if isLeapYear y then 29 else 28)
  else if m == 4 || m == 6 || m == 9 || m == 11 then 30 else 31

/-- Model of datetime.strptime with format Y m d followed by .date(), as
used by DateTimeElement.from_etree: exactly eight digits, split 4-2-2,
month and day validated against the calendar. -/
def strptimeYmd (s : String) : Option PyDate :=
  let l := s.toList
  if l.length == 8 && l.all Char.isDigit then
    let y := digitsToNat (l.take 4)
    let m := digitsToNat ((l.drop 4).take 2)
    let d := digitsToNat (l.drop 6)
    if 1 ≤ m && m ≤ 12 && 1 ≤ d && d ≤ daysInMonth y m then some ⟨y, m, d⟩
    else Option.none
  else Option.none

/-- Dynamically typed Python value as it flows through the codec: a
string, an int, an exact decimal, a calendar date, a boolean, or None. -/
inductive PyVal where
  | str (s : String)
  | int (n : Int)
  | dec (d : PyDecimal)
  | date (d : PyDate)
  | bool (b : Bool)
  | none
deriving DecidableEq, Repr

/-- Model of the str builtin on the values of PyVal. -/
def pyStr : PyVal → String
  | .str s => s
  | .int n => toString n
  | .dec d => decToString d
  | .date d => padNum 4 d.year ++ "-" ++ padNum 2 d.month ++ "-" ++ padNum 2 d.day
  | .bool b => if b then "True" else "False"
  | .none => "None"

/-- Document tree node (the ElementTree node shape the codec consumes and
produces): a qualified tag, an ordered attribute mapping, a text payload
and an ordered list of children.  Attribute values and text are PyVal
because the source assigns unconverted Python objects to them. -/
inductive XNode where
  | mk (tag : String) (attrib : List (String × PyVal)) (text : PyVal) (children : List XNode)

/-- Tag of a node. -/
def XNode.tag : XNode → String
  | .mk t _ _ _ => t

/-- Attribute mapping of a node. -/
def XNode.attrib : XNode → List (String × PyVal)
  | .mk _ a _ _ => a

/-- Text payload of a node. -/
def XNode.text : XNode → PyVal
  | .mk _ _ x _ => x

/-- Children of a node. -/
def XNode.children : XNode → List XNode
  | .mk _ _ _ c => c

/-- Model of node.append. -/
def XNode.addChild : XNode → XNode → XNode
  | .mk t a x cs, c => .mk t a x (cs ++ [c])

/-- Lookup in a string-keyed attribute mapping; none models a KeyError. -/
def attrLookup (attrs : List (String × PyVal)) (k : String) : Option PyVal :=
  match attrs.find? (fun p => p.1 == k) with
  | some p => some p.2
  | Option.none => Option.none

/-- Qualified tag in Clark notation, as built by get_tag: the namespace
in braces followed by the local name. -/
def qualTag (ns tag : String) : String :=
  "\x7b" ++ ns ++ "\x7d" ++ tag

/-- Modelled from the spec: the namespace table of drafthorse/models/
(the package init module is not in src).  NS_UDT is the fixed namespace
URI reused for the DateTimeString and Indicator wrapper tags. -/
def NS_UDT : String :=
  "urn:un:unece:uncefact:data:standard:UnqualifiedDataType:15"

/-- Decode failure taxonomy of the spec, mapped onto the exceptions the
source raises during from_etree. -/
inductive DecodeError where
  | tagMismatch (found expected : String)
  | unknownElement (tag : String)
  | invalidDecimal (text : String)
  | notConvertible (value : PyVal)
  | missingAttribute (key : String)
  | malformedDateContainer
  | unrecognizedDateTag (tag : String)
  | unsupportedDateFormat (format : PyVal)
  | malformedDate (text : PyVal)
  | attributeError (detail : String)
deriving DecidableEq, Repr

/-- Encode failure taxonomy: exceptions the source raises during
to_etree and append_to. -/
inductive EncodeError where
  | missingMeta
  | strftimeOnNonDate (value : PyVal)
  | appendedNone
deriving DecidableEq, Repr

/-- Model of the Decimal constructor applied to a PyVal, as called in
the from_etree methods: strings are parsed (InvalidOperation on
malformed text becomes invalidDecimal), ints and booleans convert
exactly, decimals pass through, anything else raises. -/
def pyDecimalOf : PyVal → Except DecodeError PyDecimal
  | .str s =>
      match decParse s with
      | some d => .ok d
      | Option.none => .error (.invalidDecimal s)
  | .int n => .ok ⟨n < 0, n.natAbs, 0⟩
  | .bool b => .ok ⟨false, if b then 1 else 0, 0⟩
  | .dec d => .ok d
  | v => .error (.notConvertible v)

/-- The leaf element classes of elements.py (the subclasses of
StringElement).  Each carries its instance namespace and tag plus the
attributes its init method sets.  The indicator variant also carries the
text attribute it inherits from the StringElement init method, because
the inherited from_etree assigns to it. -/
inductive LeafVal where
  | string (ns tag : String) (text : PyVal)
  | decimal (ns tag : String) (value : PyVal)
  | quantity (ns tag : String) (amount : PyVal) (unit_code : PyVal)
  | currency (ns tag : String) (amount : PyVal) (currency : PyVal)
  | classification (ns tag : String) (text : PyVal) (list_id : PyVal) (list_version_id : PyVal)
  | agency (ns tag : String) (text : PyVal) (scheme_id : PyVal)
  | idElement (ns tag : String) (text : PyVal) (scheme_id : PyVal)
  | dateTime (ns tag : String) (value : PyVal) (format : PyVal)
  | indicator (ns tag : String) (text : PyVal) (value : PyVal)
deriving DecidableEq, Repr

/-- Constructor model of StringElement with its default text. -/
def StringElement.init (ns tag : String) (text : PyVal := .str "") : LeafVal :=
  .string ns tag text

/-- Constructor model of DecimalElement; the source default value is the
int literal zero. -/
def DecimalElement.init (ns tag : String) (value : PyVal := .int 0) : LeafVal :=
  .decimal ns tag value

/-- Constructor model of QuantityElement with its defaults. -/
def QuantityElement.init (ns tag : String) (amount : PyVal := .str "")
    (unit_code : PyVal := .str "") : LeafVal :=
  .quantity ns tag amount unit_code

/-- Constructor model of CurrencyElement: the currency argument defaults
to EUR. -/
def CurrencyElement.init (ns tag : String) (amount : PyVal := .str "")
    (currency : PyVal := .str "EUR") : LeafVal :=
  .currency ns tag amount currency

/-- Constructor model of ClassificationElement with its defaults. -/
def ClassificationElement.init (ns tag : String) (text : PyVal := .str "")
    (list_id : PyVal := .str "") (list_version_id : PyVal := .str "") : LeafVal :=
  .classification ns tag text list_id list_version_id

/-- Constructor model of AgencyIDElement with its defaults. -/
def AgencyIDElement.init (ns tag : String) (text : PyVal := .str "")
    (scheme_id : PyVal := .str "") : LeafVal :=
  .agency ns tag text scheme_id

/-- Constructor model of IDElement with its defaults. -/
def IDElement.init (ns tag : String) (text : PyVal := .str "")
    (scheme_id : PyVal := .str "") : LeafVal :=
  .idElement ns tag text scheme_id

/-- Constructor model of DateTimeElement: value defaults to None and
format to the code 102. -/
def DateTimeElement.init (ns tag : String) (value : PyVal := .none)
    (format : PyVal := .str "102") : LeafVal :=
  .dateTime ns tag value format

/-- Constructor model of IndicatorElement: value defaults to None; the
text attribute is set to the empty string by the inherited StringElement
init method. -/
def IndicatorElement.init (ns tag : String) (value : PyVal := .none) : LeafVal :=
  .indicator ns tag (.str "") value

/-- The get_tag method of StringElement (shared by every leaf class):
the qualified tag built from the instance namespace and tag. -/
def leafGetTag : LeafVal → String
  | .string ns tag _ => qualTag ns tag
  | .decimal ns tag _ => qualTag ns tag
  | .quantity ns tag _ _ => qualTag ns tag
  | .currency ns tag _ _ => qualTag ns tag
  | .classification ns tag _ _ _ => qualTag ns tag
  | .agency ns tag _ _ => qualTag ns tag
  | .idElement ns tag _ _ => qualTag ns tag
  | .dateTime ns tag _ _ => qualTag ns tag
  | .indicator ns tag _ _ => qualTag ns tag

/-- The to_etree methods of the leaf classes, translated line by line.
The result is an optional node inside Except: ok none models the
IndicatorElement.to_etree method, which builds its node but falls off
the end of the function body and returns None; the error case models the
AttributeError that DateTimeElement.to_etree raises when it calls
strftime on a value that is not a date. -/
def leafToEtree : LeafVal → Except EncodeError (Option XNode)
  | .string ns tag text =>
      .ok (some (.mk (qualTag ns tag) [] text []))
  | .decimal ns tag value =>
      .ok (some (.mk (qualTag ns tag) [] (.str (pyStr value)) []))
  | .quantity ns tag amount unit_code =>
      .ok (some (.mk (qualTag ns tag) [("unitCode", unit_code)] (.str (pyStr amount)) []))
  | .currency ns tag amount currency =>
      .ok (some (.mk (qualTag ns tag) [("currencyID", currency)] (.str (pyStr amount)) []))
  | .classification ns tag text list_id list_version_id =>
      .ok (some (.mk (qualTag ns tag)
        [("listID", list_id), ("listVersionID", list_version_id)] text []))
  | .agency ns tag text scheme_id =>
      .ok (some (.mk (qualTag ns tag) [("schemeAgencyID", scheme_id)] text []))
  | .idElement ns tag text scheme_id =>
      .ok (some (.mk (qualTag ns tag) [("schemeID", scheme_id)] text []))
  | .dateTime ns tag value format =>
      match value with
      | .date d =>
          .ok (some (.mk (qualTag ns tag) [] .none
            [.mk (qualTag NS_UDT "DateTimeString") [("format", format)]
              (.str (dateStrftimeYmd d)) []]))
      | v => .error (.strftimeOnNonDate v)
  | .indicator ns tag _text value =>
      let _built : XNode :=
        .mk (qualTag ns tag) [] .none [.mk (qualTag NS_UDT "Indicator") [] value []]
      .ok Option.none

/-- The from_etree methods of the leaf classes, translated line by line.
A call mutates the element in place in the source, so the model returns
the updated element together with an optional error; on an error the
returned element carries exactly the attribute assignments the source
performed before raising.  Note that the classification and agency
variants convert the node text with the Decimal constructor, exactly as
the source does. -/
def leafFromEtree : LeafVal → XNode → LeafVal × Option DecodeError
  | .string ns tag _, root => (.string ns tag root.text, Option.none)
  | .decimal ns tag value, root =>
      (match pyDecimalOf root.text with
      | .error er => (.decimal ns tag value, some er)
      | .ok d => (.decimal ns tag (.dec d), Option.none))
  | .quantity ns tag amount unit_code, root =>
      (match pyDecimalOf root.text with
      | .error er => (.quantity ns tag amount unit_code, some er)
      | .ok d =>
          match attrLookup root.attrib "unitCode" with
          | some u => (.quantity ns tag (.dec d) u, Option.none)
          | Option.none =>
              (.quantity ns tag (.dec d) unit_code, some (.missingAttribute "unitCode")))
  | .currency ns tag amount currency, root =>
      (match pyDecimalOf root.text with
      | .error er => (.currency ns tag amount currency, some er)
      | .ok d =>
          match attrLookup root.attrib "currencyID" with
          | some c => (.currency ns tag (.dec d) c, Option.none)
          | Option.none =>
              (.currency ns tag (.dec d) currency, some (.missingAttribute "currencyID")))
  | .classification ns tag text list_id list_version_id, root =>
      (match pyDecimalOf root.text with
      | .error er => (.classification ns tag text list_id list_version_id, some er)
      | .ok d =>
          match attrLookup root.attrib "listID" with
          | Option.none =>
              (.classification ns tag (.dec d) list_id list_version_id,
                some (.missingAttribute "listID"))
          | some li =>
              match attrLookup root.attrib "listVersionID" with
              | Option.none =>
                  (.classification ns tag (.dec d) li list_version_id,
                    some (.missingAttribute "listVersionID"))
              | some lv => (.classification ns tag (.dec d) li lv, Option.none))
  | .agency ns tag text scheme_id, root =>
      (match pyDecimalOf root.text with
      | .error er => (.agency ns tag text scheme_id, some er)
      | .ok d =>
          match attrLookup root.attrib "schemeAgencyID" with
          | some s => (.agency ns tag (.dec d) s, Option.none)
          | Option.none =>
              (.agency ns tag (.dec d) scheme_id, some (.missingAttribute "schemeAgencyID")))
  | .idElement ns tag _text scheme_id, root =>
      (match attrLookup root.attrib "schemeID" with
      | some s => (.idElement ns tag root.text s, Option.none)
      | Option.none =>
          (.idElement ns tag root.text scheme_id, some (.missingAttribute "schemeID")))
  | .dateTime ns tag value format, root =>
      (match root.children with
      | [c] =>
          if c.tag ≠ qualTag NS_UDT "DateTimeString" then
            (.dateTime ns tag value format, some (.unrecognizedDateTag c.tag))
          else
            match attrLookup c.attrib "format" with
            | Option.none => (.dateTime ns tag value format, some (.missingAttribute "format"))
            | some f =>
                if f ≠ .str "102" then
                  (.dateTime ns tag value format, some (.unsupportedDateFormat f))
                else
                  match c.text with
                  | .str s =>
                      (match strptimeYmd s with
                      | some d => (.dateTime ns tag (.date d) f, Option.none)
                      | Option.none =>
                          (.dateTime ns tag value format, some (.malformedDate (.str s))))
                  | t => (.dateTime ns tag value format, some (.malformedDate t))
      | _ => (.dateTime ns tag value format, some .malformedDateContainer))
  | .indicator ns tag _text value, root => (.indicator ns tag root.text value, Option.none)

mutual
/-- A slot value of an Element: a leaf element, a nested Element, or a
Container of repeated Elements (spec section 3).  The container variant
carries the prototype used to build fresh items (modelled from the spec,
section 4.5, since container.py is not in src) together with its ordered
item list. -/
inductive Value where
  | leaf (l : LeafVal)
  | nested (e : Elem)
  | cont (proto : Elem) (items : List Elem)

/-- Modelled from the spec: a Field declaration (fields.py is not in
src) with its name, whether a default is materialized at construction
(the f.default flag read by the Element init method) and the value its
initialize factory produces, which fixes the tag used for decode
dispatch (spec sections 3 and 4.3). -/
inductive FieldSchema where
  | mk (name : String) (default : Bool) (defaultValue : Value)

/-- The generic Element class: the optional fixed namespace and tag of
its Meta declaration, the constant Meta attributes, the field list
collected by the metaclass, the ordered slot mapping _data, and the
plain instance attributes created by setattr on undeclared names. -/
inductive Elem where
  | mk (tagNs : Option (String × String)) (metaAttrs : List (String × PyVal))
       (fields : List FieldSchema) (slots : List (String × Option Value))
       (extras : List (String × Value))
end

/-- Name of a declared field. -/
def FieldSchema.name : FieldSchema → String
  | .mk n _ _ => n

/-- Default flag of a declared field. -/
def FieldSchema.default : FieldSchema → Bool
  | .mk _ d _ => d

/-- Value produced by the default factory of a declared field. -/
def FieldSchema.defaultValue : FieldSchema → Value
  | .mk _ _ v => v

/-- Fixed namespace and tag of the Meta declaration, when present. -/
def Elem.tagNs : Elem → Option (String × String)
  | .mk t _ _ _ _ => t

/-- Constant attributes of the Meta declaration. -/
def Elem.metaAttrs : Elem → List (String × PyVal)
  | .mk _ a _ _ _ => a

/-- Declared field list of the element type. -/
def Elem.fields : Elem → List FieldSchema
  | .mk _ _ f _ _ => f

/-- Ordered slot mapping _data of the element instance. -/
def Elem.slots : Elem → List (String × Option Value)
  | .mk _ _ _ s _ => s

/-- Undeclared instance attributes created by setattr. -/
def Elem.extras : Elem → List (String × Value)
  | .mk _ _ _ _ x => x

/-- Insertion into an ordered string-keyed mapping with OrderedDict
semantics: an existing key keeps its position and gets the new value, a
fresh key is appended at the end. -/
def odInsert (m : List (String × α)) (k : String) (v : α) : List (String × α) :=
  if m.any (fun p => p.1 == k) then
    m.map (fun p => if p.1 == k then (p.1, v) else p)
  else m ++ [(k, v)]

/-- Current content of a slot: none when the name is not a key of the
mapping, some v when it is, where v is the stored optional value. -/
def slotLookup (e : Elem) (name : String) : Option (Option Value) :=
  match e.slots.find? (fun p => p.1 == name) with
  | some p => some p.2
  | Option.none => Option.none

/-- Update of one slot in place, preserving the mapping order, as the
assignment into _data performed by field assignment does. -/
def setSlot (e : Elem) (name : String) (v : Option Value) : Elem :=
  match e with
  | .mk t a f slots x =>
      .mk t a f (slots.map (fun p => if p.1 == name then (p.1, v) else p)) x

/-- The slot mapping built by the Element init method (elements.py lines
31 to 33): one entry per declared field in declaration order, holding the
initialized default when the default flag of the field is set and None
otherwise, with OrderedDict construction semantics. -/
def initSlotsGo (acc : List (String × Option Value)) :
    List FieldSchema → List (String × Option Value)
  | [] => acc
  | f :: fs =>
      initSlotsGo (odInsert acc f.name (if f.default then some f.defaultValue else Option.none)) fs

/-- Slot mapping of a freshly constructed Element. -/
def initSlots (fields : List FieldSchema) : List (String × Option Value) :=
  initSlotsGo [] fields

/-- A freshly constructed Element before any keyword assignment. -/
def elemInit (tagNs : Option (String × String)) (metaAttrs : List (String × PyVal))
    (fields : List FieldSchema) : Elem :=
  .mk tagNs metaAttrs fields (initSlots fields) []

/-- Model of setattr on an Element: when the name is a declared field the
descriptor stores the value into the slot (modelled from the spec, since
the Field descriptor in fields.py is not in src: slots are mutated
through field assignment); any other name becomes a plain instance
attribute, silently accepted. -/
def pySetattr (e : Elem) (k : String) (v : Value) : Elem :=
  if e.fields.any (fun f => f.name == k) then setSlot e k (some v)
  else
    match e with
    | .mk t a f s x => .mk t a f s (odInsert x k v)

/-- Sequential setattr of a list of assignments, as the keyword loop of
the Element init method performs (elements.py lines 34 and 35). -/
def assignAll (e : Elem) (asgs : List (String × Value)) : Elem :=
  asgs.foldl (fun e p => pySetattr e p.1 p.2) e

/-- The Element init method with keyword arguments: materialize the slot
mapping, then setattr every keyword pair in order. -/
def pyInit (tagNs : Option (String × String)) (metaAttrs : List (String × PyVal))
    (fields : List FieldSchema) (kwargs : List (String × Value)) : Elem :=
  assignAll (elemInit tagNs metaAttrs fields) kwargs

/-- Modelled from the spec: reading a declared field through its
descriptor yields the current slot content when the slot is populated
and the materialized default value of the field otherwise (spec section
4.3 step 2: decode dispatch uses the already-materialized per-field
default values). -/
def getattrField (e : Elem) (f : FieldSchema) : Value :=
  match slotLookup e f.name with
  | some (some v) => v
  | _ => f.defaultValue

/-- The get_tag method of the generic Element class: it reads the Meta
namespace and tag; without them the attribute access raises. -/
def elemGetTag (e : Elem) : Except DecodeError String :=
  match e.tagNs with
  | some (ns, tg) => .ok (qualTag ns tg)
  | Option.none => .error (.attributeError "Meta")

/-- The get_tag of a slot value: leaves use the StringElement get_tag,
nested elements the Element get_tag, and containers the tag of their
item prototype (modelled from the spec, section 3: all container items
share the same tag). -/
def valueGetTag : Value → Except DecodeError String
  | .leaf l => .ok (leafGetTag l)
  | .nested e => elemGetTag e
  | .cont proto _ => elemGetTag proto

/-- The field index built at the start of Element.from_etree (elements.py
lines 65 to 68): for each declared field in order, the qualified tag of
its current value maps to the field name, with dict overwrite semantics
for duplicate tags. -/
def buildIndex (e : Elem) : List FieldSchema → List (String × String) →
    Except DecodeError (List (String × String))
  | [], acc => .ok acc
  | f :: fs, acc =>
      match valueGetTag (getattrField e f) with
      | .error er => .error er
      | .ok tg => buildIndex e fs (odInsert acc tg f.name)

/-- The field index of an element, from its declared fields. -/
def fieldIndexOf (e : Elem) : Except DecodeError (List (String × String)) :=
  buildIndex e e.fields []

/-- Lookup of a child tag in the field index. -/
def idxLookup (idx : List (String × String)) (tg : String) : Option String :=
  match idx.find? (fun p => p.1 == tg) with
  | some p => some p.2
  | Option.none => Option.none

/-- Reading a field by name, as getattr inside the decode loop does:
find the declared field, then read it through its descriptor. -/
def getattrByName (e : Elem) (name : String) : Option Value :=
  match e.fields.find? (fun f => f.name == name) with
  | some f => some (getattrField e f)
  | Option.none => Option.none

mutual
/-- Element.from_etree (elements.py lines 62 to 78).  The source mutates
self and returns it, or raises; the model returns the element state
reached when the call finishes or raises, together with the optional
error.  First the declared tag is checked (line 63); then the field
index is built (lines 65 to 68); then each child is dispatched through
the index (lines 69 to 77). -/
def elemFromEtree (e : Elem) (node : XNode) : Elem × Option DecodeError :=
  match e.tagNs with
  | some (ns, tg) =>
      if node.tag = qualTag ns tg then elemDecodeChildren e node
      else (e, some (.tagMismatch node.tag (qualTag ns tg)))
  | Option.none => elemDecodeChildren e node
termination_by (sizeOf node, 2)

/-- The body of Element.from_etree after the tag check: build the field
index once, then process the children in order. -/
def elemDecodeChildren (e : Elem) (node : XNode) : Elem × Option DecodeError :=
  match fieldIndexOf e with
  | .error er => (e, some er)
  | .ok idx => processChildren idx e node.children
termination_by (sizeOf node, 1)
decreasing_by cases node ; simp [XNode.children] ; omega

/-- The child loop of Element.from_etree: look each child tag up in the
field index built before the loop; an unmatched tag raises the unknown
element error; a matched tag decodes into the current value of the
field, container values by repeated add, and the updated value is
stored back into the slot (the descriptor in the source materializes
and mutates the stored object in place). -/
def processChildren (idx : List (String × String)) (e : Elem) (cs : List XNode) :
    Elem × Option DecodeError :=
  match cs with
  | [] => (e, Option.none)
  | c :: rest =>
      match idxLookup idx c.tag with
      | Option.none => (e, some (.unknownElement c.tag))
      | some name =>
          match getattrByName e name with
          | Option.none => (e, some (.attributeError name))
          | some cur =>
              match valueFromEtree cur c with
              | (cur2, some er) => (setSlot e name (some cur2), some er)
              | (cur2, Option.none) => processChildren idx (setSlot e name (some cur2)) rest
termination_by (sizeOf cs, 0)

/-- Decode dispatch on the current value of a field (elements.py lines
72 to 75): a Container delegates to its repeated add, which builds a
fresh item from the prototype, decodes into it and appends it on
success (modelled from the spec, section 4.5); anything else decodes in
place through its own from_etree. -/
def valueFromEtree (v : Value) (c : XNode) : Value × Option DecodeError :=
  match v with
  | .leaf l => (match leafFromEtree l c with | (l2, er) => (.leaf l2, er))
  | .nested el => (match elemFromEtree el c with | (el2, er) => (.nested el2, er))
  | .cont proto items =>
      match elemFromEtree proto c with
      | (item, Option.none) => (.cont proto (items ++ [item]), Option.none)
      | (_, some er) => (.cont proto items, some er)
termination_by (sizeOf c, 3)
end

/-- The _etree_node method (elements.py lines 37 to 42): a fresh node
carrying the qualified Meta tag and the constant Meta attributes; the
get_tag access raises without a Meta declaration. -/
def elemEtreeNode (e : Elem) : Except EncodeError XNode :=
  match e.tagNs with
  | some (ns, tg) => .ok (.mk (qualTag ns tg) e.metaAttrs .none [])
  | Option.none => .error .missingMeta

mutual
/-- Element.to_etree (elements.py lines 44 to 49): build the node, then
append every slot value that is not None, iterating the slot mapping in
its stored order. -/
def elemToEtree (e : Elem) : Except EncodeError XNode :=
  match elemEtreeNode e with
  | .error er => .error er
  | .ok n => encodeSlots e.slots n
termination_by sizeOf e
decreasing_by cases e ; simp [Elem.slots] ; omega

/-- The slot loop of Element.to_etree: None slots are skipped, populated
slots append to the node in order. -/
def encodeSlots (slots : List (String × Option Value)) (n : XNode) :
    Except EncodeError XNode :=
  match slots with
  | [] => .ok n
  | (_, Option.none) :: rest => encodeSlots rest n
  | (_, some v) :: rest =>
      match valueAppendTo v n with
      | .error er => .error er
      | .ok n2 => encodeSlots rest n2
termination_by sizeOf slots

/-- The append_to method on a slot value (elements.py lines 54 and 55
for elements and leaves): append the node the to_etree of the value
returns; appending the None that IndicatorElement.to_etree returns
raises.  A container appends one child per item in insertion order
(modelled from the spec, section 4.5, since container.py is not in
src). -/
def valueAppendTo (v : Value) (n : XNode) : Except EncodeError XNode :=
  match v with
  | .leaf l =>
      match leafToEtree l with
      | .error er => .error er
      | .ok (some child) => .ok (n.addChild child)
      | .ok Option.none => .error .appendedNone
  | .nested el =>
      match elemToEtree el with
      | .error er => .error er
      | .ok child => .ok (n.addChild child)
  | .cont _ items => encodeItems items n
termination_by sizeOf v

/-- Encoding of container items: each item appends its own node, in
order. -/
def encodeItems (items : List Elem) (n : XNode) : Except EncodeError XNode :=
  match items with
  | [] => .ok n
  | i :: rest =>
      match elemToEtree i with
      | .error er => .error er
      | .ok child => encodeItems rest (n.addChild child)
termination_by sizeOf items
end

/-- A class body attribute considered by the metaclass: either a Field
declaration or any other attribute. -/
inductive ClassAttr where
  | field (f : FieldSchema)
  | other

/-- The metaclass collection pass (BaseElementMeta.__new__, elements.py
lines 16 to 26): start from a copy of the field list inherited from the
parent type and append every Field found in the class body, in
declaration order, storing the result as the field list of the new
type. -/
def collectFields (parentFields : List FieldSchema)
    (attrs : List (String × ClassAttr)) : List FieldSchema :=
  attrs.foldl (fun fs p => match p.2 with | .field f => fs ++ [f] | .other => fs) parentFields

/-- The fixed document prologue prepended by serialize. -/
def xmlPrologue : String :=
  "<?xml version=\"1.0\" encoding=\"UTF-8\"?>"

/-- Error type of serialize: either an encode failure raised by
to_etree, or a validation failure propagated unchanged from the
external validator. -/
inductive SerializeError (ε : Type) where
  | encode (er : EncodeError)
  | validation (er : ε)

/-- Element.serialize (elements.py lines 57 to 60), parametric in the
external renderer and validator (validate_xml lives in
drafthorse/utils.py, which is not in src; modelled from the spec,
section 6, as a pass or fail check on the produced bytes and a schema
name).  The result comes with the trace of validator invocations as
argument pairs: the source calls the validator exactly once, on the
concatenation of the prologue and the rendered tree, with the fixed
schema version ZUGFeRD1p0, and returns those bytes on pass. -/
def serialize {ε : Type} (render : XNode → String)
    (validator : String → String → Except ε Unit) (e : Elem) :
    Except (SerializeError ε) String × List (String × String) :=
  match elemToEtree e with
  | .error er => (.error (.encode er), [])
  | .ok tree =>
      let xml := xmlPrologue ++ render tree
      (match validator xml "ZUGFeRD1p0" with
       | .ok _ => .ok xml
       | .error er => .error (.validation er),
       [(xml, "ZUGFeRD1p0")])

/-- The tag acceptance condition of Element.from_etree: when the type
declares a fixed namespace and tag, the node must carry exactly that
qualified tag. -/
def tagAccepts (e : Elem) (node : XNode) : Prop :=
  ∀ ns tg, e.tagNs = some (ns, tg) → node.tag = qualTag ns tg

/-- Lookup in a string-keyed association list, first match wins. -/
def lookupPairs {α : Type} (m : List (String × α)) (k : String) : Option α :=
  match m.find? (fun p => p.1 == k) with
  | some p => some p.2
  | Option.none => Option.none

/-- Reading a plain (undeclared) instance attribute of an element. -/
def extraLookup (e : Elem) (k : String) : Option Value :=
  lookupPairs e.extras k

/-- Concrete declared field with a materialized decimal default, used to
exercise the generic decode loop. -/
def c2FieldAmount : FieldSchema :=
  .mk "amount" true (.leaf (DecimalElement.init "n" "Amt"))

/-- Concrete optional declared field (no default, slot starts null). -/
def c2FieldNote : FieldSchema :=
  .mk "note" false (.leaf (StringElement.init "n" "Note"))

/-- Concrete element with one defaulted decimal field and one optional
string field and no declared Meta tag. -/
def c2ElemX : Elem :=
  elemInit Option.none [] [c2FieldAmount, c2FieldNote]

/-- The field index of c2ElemX. -/
def c2IdxX : List (String × String) :=
  [(qualTag "n" "Amt", "amount"), (qualTag "n" "Note", "note")]

/-- Input node whose first child is a declared decimal field with
malformed text and whose second child carries an undeclared tag. -/
def c2NodeBad : XNode :=
  .mk "root" [] .none
    [.mk (qualTag "n" "Amt") [] (.str "xx") [],
     .mk (qualTag "n" "Other") [] .none []]

/-- Input node with a single child carrying an undeclared tag. -/
def c2NodeUnknown : XNode :=
  .mk "root" [] .none [.mk (qualTag "n" "Other2") [] .none []]

/-- Input node carrying only the declared decimal child, well formed;
the optional note field has no corresponding child. -/
def c2NodeGood : XNode :=
  .mk "root" [] .none [.mk (qualTag "n" "Amt") [] (.str "12.50") []]

/-- Two declared optional string fields for the field order claim. -/
def c4Fields : List FieldSchema :=
  [.mk "a" false (.leaf (StringElement.init "n" "A")),
   .mk "b" false (.leaf (StringElement.init "n" "B"))]

/-- Assignment of both declared fields, a first. -/
def c4Asgs1 : List (String × Value) :=
  [("a", .leaf (.string "n" "A" (.str "x"))), ("b", .leaf (.string "n" "B" (.str "y")))]

/-- The same two assignments in the opposite order. -/
def c4Asgs2 : List (String × Value) :=
  [("b", .leaf (.string "n" "B" (.str "y"))), ("a", .leaf (.string "n" "A" (.str "x")))]

/-- C1: the round-trip claim fails on the code.  For the Classification
variant (and likewise the AgencyCode variant), encode stores the text
unchanged while decode parses the node text with the Decimal
constructor, so a classification leaf with ordinary non-numeric text
does not survive decode of its own encoding: the decode call raises an
invalid decimal error and leaves the value unchanged, instead of
returning a value equal to the original. -/
theorem c1_classification_roundtrip_fails :
    leafToEtree (ClassificationElement.init "ns" "Cls" (.str "Office supplies")
        (.str "L1") (.str "1"))
      = .ok (some (.mk (qualTag "ns" "Cls")
          [("listID", .str "L1"), ("listVersionID", .str "1")] (.str "Office supplies") []))
    ∧ leafFromEtree (ClassificationElement.init "ns" "Cls" (.str "Office supplies")
        (.str "L1") (.str "1"))
        (.mk (qualTag "ns" "Cls")
          [("listID", .str "L1"), ("listVersionID", .str "1")] (.str "Office supplies") [])
      = (ClassificationElement.init "ns" "Cls" (.str "Office supplies") (.str "L1") (.str "1"),
          some (.invalidDecimal "Office supplies")) :=
  ⟨rfl, rfl⟩

/-- C3: date strictness.  A date leaf node whose single DateTimeString
child carries format 101 fails decode with the unsupported date format
error; a date leaf node with two DateTimeString children fails with the
malformed date container error; a date leaf node with one child, format
102 and text 20230115 decodes to the calendar date 2023-01-15 with
format 102, and re-encoding the decoded element produces the identical
node. -/
theorem c3_date_strictness :
    (leafFromEtree (DateTimeElement.init "n" "IssueDateTime")
        (.mk (qualTag "n" "IssueDateTime") [] .none
          [.mk (qualTag NS_UDT "DateTimeString") [("format", .str "101")] (.str "20230115") []])
      = (DateTimeElement.init "n" "IssueDateTime", some (.unsupportedDateFormat (.str "101"))))
    ∧ (leafFromEtree (DateTimeElement.init "n" "IssueDateTime")
        (.mk (qualTag "n" "IssueDateTime") [] .none
          [.mk (qualTag NS_UDT "DateTimeString") [("format", .str "102")] (.str "20230115") [],
           .mk (qualTag NS_UDT "DateTimeString") [("format", .str "102")] (.str "20230116") []])
      = (DateTimeElement.init "n" "IssueDateTime", some .malformedDateContainer))
    ∧ (leafFromEtree (DateTimeElement.init "n" "IssueDateTime")
        (.mk (qualTag "n" "IssueDateTime") [] .none
          [.mk (qualTag NS_UDT "DateTimeString") [("format", .str "102")] (.str "20230115") []])
      = (.dateTime "n" "IssueDateTime" (.date ⟨2023, 1, 15⟩) (.str "102"), Option.none))
    ∧ (leafToEtree (.dateTime "n" "IssueDateTime" (.date ⟨2023, 1, 15⟩) (.str "102"))
      = .ok (some (.mk (qualTag "n" "IssueDateTime") [] .none
          [.mk (qualTag NS_UDT "DateTimeString") [("format", .str "102")] (.str "20230115") []]))) :=
  ⟨rfl, rfl, rfl, rfl⟩

/-- C7: a CurrencyAmount constructed without an explicit currency
argument holds the currency EUR, and encoding it emits a node whose
currencyID attribute is EUR. -/
theorem c7_currency_default (ns tag : String) (amount : PyVal) :
    CurrencyElement.init ns tag amount = .currency ns tag amount (.str "EUR")
    ∧ leafToEtree (CurrencyElement.init ns tag amount)
      = .ok (some (.mk (qualTag ns tag) [("currencyID", .str "EUR")] (.str (pyStr amount)) [])) :=
  ⟨rfl, rfl⟩

/-- C9: the indicator encode claim fails on the code.  The to_etree
method of IndicatorElement builds the wrapper node with its nested
Indicator child (whose text is the raw, unstringified boolean value)
but never returns it, so the call evaluates to None, and the append_to
of an enclosing element then fails when it appends that None instead of
receiving the constructed node. -/
theorem c9_indicator_encode_returns_none :
    leafToEtree (IndicatorElement.init "n" "IndicatorWrap" (.bool true)) = .ok Option.none
    ∧ valueAppendTo (.leaf (IndicatorElement.init "n" "IndicatorWrap" (.bool true)))
        (.mk (qualTag "n" "Parent") [] .none []) = .error .appendedNone :=
  ⟨rfl, by simp [valueAppendTo, IndicatorElement.init, leafToEtree]⟩

/-- Unfolding lemma: the child loop on an empty child list returns the
element unchanged with no error. -/
theorem processChildren_nil (idx : List (String × String)) (e : Elem) :
    processChildren idx e [] = (e, Option.none) := by
  simp [processChildren]

/-- Unfolding lemma: one step of the child loop. -/
theorem processChildren_cons (idx : List (String × String)) (e : Elem) (c : XNode)
    (rest : List XNode) :
    processChildren idx e (c :: rest) =
      match idxLookup idx c.tag with
      | Option.none => (e, some (.unknownElement c.tag))
      | some name =>
          match getattrByName e name with
          | Option.none => (e, some (.attributeError name))
          | some cur =>
              match valueFromEtree cur c with
              | (cur2, some er) => (setSlot e name (some cur2), some er)
              | (cur2, Option.none) => processChildren idx (setSlot e name (some cur2)) rest := by
  conv_lhs => unfold processChildren

/-- Element.from_etree under a passing tag check and a successfully
built field index runs the child loop on the children of the node. -/
theorem elemFromEtree_run (e : Elem) (node : XNode) (idx : List (String × String))
    (htag : tagAccepts e node) (hidx : fieldIndexOf e = .ok idx) :
    elemFromEtree e node = processChildren idx e node.children := by
  unfold elemFromEtree elemDecodeChildren
  cases h : e.tagNs with
  | none => rw [hidx]
  | some p =>
      cases p with
      | mk ns tg =>
          rw [htag ns tg h]
          simp [hidx]

/-- C8: for an element whose type declares a fixed namespace and tag,
decoding a node whose tag differs from the declared qualified tag fails
with a tag mismatch error reporting both the found and the expected
tag, and the element is returned unchanged: the failure happens before
any child processing, so the slots are untouched. -/
theorem c8_tag_mismatch (e : Elem) (node : XNode) (ns tg : String)
    (hmeta : e.tagNs = some (ns, tg)) (hne : node.tag ≠ qualTag ns tg) :
    elemFromEtree e node = (e, some (.tagMismatch node.tag (qualTag ns tg))) := by
  unfold elemFromEtree
  rw [hmeta]
  simp [hne]

/-- Witness for C8 at a concrete element and node. -/
theorem c8_tag_mismatch_witness :
    elemFromEtree (elemInit (some ("a", "Root")) [] []) (.mk "wrong" [] .none [])
      = (elemInit (some ("a", "Root")) [] [],
         some (.tagMismatch "wrong" (qualTag "a" "Root"))) :=
  c8_tag_mismatch _ _ "a" "Root" rfl (by decide)

/-- The child loop cannot succeed when some child tag is missing from
the field index. -/
theorem processChildren_fail_of_unknown (idx : List (String × String)) :
    ∀ (cs : List XNode) (e : Elem),
      (∃ c ∈ cs, idxLookup idx c.tag = Option.none) →
      (processChildren idx e cs).2 ≠ Option.none := by
  intro cs
  induction cs with
  | nil => intro e h; rcases h with ⟨c, hc, _⟩; cases hc
  | cons c rest ih =>
      intro e h hcontra
      rw [processChildren_cons] at hcontra
      rcases h with ⟨w, hw, hwl⟩
      cases hlk : idxLookup idx c.tag with
      | none => simp only [hlk] at hcontra; cases hcontra
      | some name =>
          simp only [hlk] at hcontra
          cases hga : getattrByName e name with
          | none => simp only [hga] at hcontra; cases hcontra
          | some cur =>
              simp only [hga] at hcontra
              cases hvf : valueFromEtree cur c with
              | mk cur2 er =>
                  cases er with
                  | some er2 => simp only [hvf] at hcontra; cases hcontra
                  | none =>
                      simp only [hvf] at hcontra
                      rcases List.mem_cons.mp hw with rfl | hwr
                      · rw [hlk] at hwl; cases hwl
                      · exact ih (setSlot e name (some cur2)) ⟨w, hwr, hwl⟩ hcontra

/-- The child loop splits over list append: the second half runs from
the state reached by the first half when that half succeeds, and the
error of the first half is final otherwise. -/
theorem processChildren_append (idx : List (String × String)) :
    ∀ (xs ys : List XNode) (e : Elem),
      processChildren idx e (xs ++ ys) =
        (match processChildren idx e xs with
         | (e2, Option.none) => processChildren idx e2 ys
         | (e2, some er) => (e2, some er)) := by
  intro xs
  induction xs with
  | nil => intro ys e; rw [processChildren_nil]; rfl
  | cons c rest ih =>
      intro ys e
      rw [List.cons_append, processChildren_cons, processChildren_cons]
      cases hlk : idxLookup idx c.tag with
      | none => simp only [hlk]
      | some name =>
          simp only [hlk]
          cases hga : getattrByName e name with
          | none => simp only [hga]
          | some cur =>
              simp only [hga]
              cases hvf : valueFromEtree cur c with
              | mk cur2 er =>
                  cases er with
                  | some er2 => simp only [hvf]
                  | none => simp only [hvf]; exact ih ys (setSlot e name (some cur2))

/-- Reading one slot after updating a different one is unchanged. -/
theorem slotLookup_setSlot_ne (e : Elem) (a : String) (v : Option Value) (b : String)
    (h : a ≠ b) : slotLookup (setSlot e a v) b = slotLookup e b := by
  cases e with
  | mk t m f s x =>
      simp only [setSlot, slotLookup, Elem.slots]
      rw [List.find?_map]
      have hpred : ((fun p => p.1 == b) ∘ (fun p : String × Option Value =>
          if p.1 == a then (p.1, v) else p)) = (fun p : String × Option Value => p.1 == b) := by
        funext q
        by_cases hq : (q.1 == a) = true <;> simp [Function.comp, hq]
      rw [hpred]
      cases hf : List.find? (fun p => p.1 == b) s with
      | none => rfl
      | some q =>
          have hqb : q.1 = b := by simpa using List.find?_some hf
          have hqa : q.1 ≠ a := by
            rw [hqb]
            exact fun hh => h hh.symm
          simp [hqa]

/-- The child loop never touches a slot whose field name is not the
index target of any processed child tag, whether it succeeds or
fails. -/
theorem processChildren_slot_preserved (idx : List (String × String)) (fname : String) :
    ∀ (cs : List XNode) (e : Elem),
      (∀ c ∈ cs, idxLookup idx c.tag ≠ some fname) →
      slotLookup (processChildren idx e cs).1 fname = slotLookup e fname := by
  intro cs
  induction cs with
  | nil => intro e _; rw [processChildren_nil]
  | cons c rest ih =>
      intro e h
      rw [processChildren_cons]
      cases hlk : idxLookup idx c.tag with
      | none => simp only [hlk]
      | some name =>
          have hne : name ≠ fname := by
            intro heq
            exact h c (List.mem_cons_self c rest) (heq ▸ hlk)
          simp only [hlk]
          cases hga : getattrByName e name with
          | none => simp only [hga]
          | some cur =>
              simp only [hga]
              cases hvf : valueFromEtree cur c with
              | mk cur2 er =>
                  cases er with
                  | some er2 =>
                      simp only [hvf]
                      exact slotLookup_setSlot_ne e name (some cur2) fname hne
                  | none =>
                      simp only [hvf]
                      rw [ih (setSlot e name (some cur2))
                        (fun c2 hc2 => h c2 (List.mem_cons_of_mem c hc2))]
                      exact slotLookup_setSlot_ne e name (some cur2) fname hne

/-- C2 (amended): decode is closed-world.  For an element whose field
index builds successfully and whose tag check passes: if any child of
the node carries a tag absent from the field index, decode fails; when
the children preceding the first unknown-tagged child all decode
without error, the failure is exactly the unknown element error naming
that tag; a slot whose field is the index target of none of the child
tags is left untouched; and decode succeeds exactly when the loop over
the children that are present succeeds, so a node that merely lacks
the child for an optional declared field decodes successfully with
that slot left null. -/
theorem c2_closed_world_decode (e : Elem) (node : XNode) (idx : List (String × String))
    (hidx : fieldIndexOf e = .ok idx) (htag : tagAccepts e node) :
    ((∃ c ∈ node.children, idxLookup idx c.tag = Option.none) →
        (elemFromEtree e node).2 ≠ Option.none)
    ∧ (∀ pre c post, node.children = pre ++ c :: post →
        (processChildren idx e pre).2 = Option.none →
        idxLookup idx c.tag = Option.none →
        (elemFromEtree e node).2 = some (.unknownElement c.tag))
    ∧ (∀ fname, (∀ c ∈ node.children, idxLookup idx c.tag ≠ some fname) →
        slotLookup (elemFromEtree e node).1 fname = slotLookup e fname)
    ∧ ((elemFromEtree e node).2 = Option.none ↔
        (processChildren idx e node.children).2 = Option.none) := by
  have hrun := elemFromEtree_run e node idx htag hidx
  refine ⟨?_, ?_, ?_, ?_⟩
  · intro hex
    rw [hrun]
    exact processChildren_fail_of_unknown idx node.children e hex
  · intro pre c post hsplit hpre hunk
    rw [hrun, hsplit, processChildren_append]
    cases hp : processChildren idx e pre with
    | mk e2 er =>
        cases er with
        | none =>
            show (processChildren idx e2 (c :: post)).2 = _
            rw [processChildren_cons]
            simp only [hunk]
        | some er2 =>
            rw [hp] at hpre
            simp at hpre
  · intro fname hnone
    rw [hrun]
    exact processChildren_slot_preserved idx fname node.children e hnone
  · rw [hrun]

/-- C2, counterexample to the claim as stated: on an element whose
field index is built successfully, a node whose second child tag is
unknown but whose first child is a declared decimal carrying malformed
text fails decode with the invalid decimal error of the first child,
not with an unknown element error naming the unknown tag, because the
loop processes children in order and the first failure aborts the
call. -/
theorem c2_counterexample :
    fieldIndexOf c2ElemX = .ok c2IdxX
    ∧ (∃ c ∈ c2NodeBad.children, idxLookup c2IdxX c.tag = Option.none)
    ∧ (elemFromEtree c2ElemX c2NodeBad).2 = some (.invalidDecimal "xx")
    ∧ ∀ t, (elemFromEtree c2ElemX c2NodeBad).2 ≠ some (.unknownElement t) := by
  have hidx : fieldIndexOf c2ElemX = .ok c2IdxX := rfl
  have htag : tagAccepts c2ElemX c2NodeBad := by
    intro ns tg hh
    simp [c2ElemX, elemInit, Elem.tagNs] at hh
  have hrun := elemFromEtree_run c2ElemX c2NodeBad c2IdxX htag hidx
  have hv : valueFromEtree (.leaf (DecimalElement.init "n" "Amt"))
      (.mk (qualTag "n" "Amt") [] (.str "xx") []) =
      (.leaf (DecimalElement.init "n" "Amt"), some (.invalidDecimal "xx")) := by
    unfold valueFromEtree
    rfl
  have h3 : (elemFromEtree c2ElemX c2NodeBad).2 = some (.invalidDecimal "xx") := by
    rw [hrun]
    show (processChildren c2IdxX c2ElemX
      [.mk (qualTag "n" "Amt") [] (.str "xx") [],
       .mk (qualTag "n" "Other") [] .none []]).2 = _
    rw [processChildren_cons]
    show (match valueFromEtree (.leaf (DecimalElement.init "n" "Amt"))
        (.mk (qualTag "n" "Amt") [] (.str "xx") []) with
      | (cur2, some er) => (setSlot c2ElemX "amount" (some cur2), some er)
      | (cur2, Option.none) =>
          processChildren c2IdxX (setSlot c2ElemX "amount" (some cur2))
            [.mk (qualTag "n" "Other") [] .none []]).2 = _
    rw [hv]
  refine ⟨hidx, ⟨.mk (qualTag "n" "Other") [] .none [], ?_, rfl⟩, h3, ?_⟩
  · simp [c2NodeBad, XNode.children]
  · intro t ht
    rw [h3] at ht
    simp at ht

/-- Witness for C2 at concrete inputs: a node with one unknown-tagged
child fails decode and the error is exactly the unknown element error
naming that tag; a well-formed node lacking a child for the optional
note field decodes successfully, leaving the note slot null. -/
theorem c2_closed_world_decode_witness :
    ((elemFromEtree c2ElemX c2NodeUnknown).2 ≠ Option.none)
    ∧ (elemFromEtree c2ElemX c2NodeUnknown).2
        = some (.unknownElement (qualTag "n" "Other2"))
    ∧ (elemFromEtree c2ElemX c2NodeGood).2 = Option.none
    ∧ slotLookup (elemFromEtree c2ElemX c2NodeGood).1 "note" = some Option.none := by
  have hidx : fieldIndexOf c2ElemX = .ok c2IdxX := rfl
  have htagU : tagAccepts c2ElemX c2NodeUnknown := by
    intro ns tg hh
    simp [c2ElemX, elemInit, Elem.tagNs] at hh
  have htagG : tagAccepts c2ElemX c2NodeGood := by
    intro ns tg hh
    simp [c2ElemX, elemInit, Elem.tagNs] at hh
  have hU := c2_closed_world_decode c2ElemX c2NodeUnknown c2IdxX hidx htagU
  have hG := c2_closed_world_decode c2ElemX c2NodeGood c2IdxX hidx htagG
  have hc : ∀ c ∈ c2NodeGood.children, idxLookup c2IdxX c.tag ≠ some "note" := by
    intro c hcm
    simp [c2NodeGood, XNode.children] at hcm
    subst hcm
    intro hcontra
    rw [show idxLookup c2IdxX (XNode.tag (.mk (qualTag "n" "Amt") [] (.str "12.50") []))
      = some "amount" from rfl] at hcontra
    simp at hcontra
  have hv2 : valueFromEtree (.leaf (DecimalElement.init "n" "Amt"))
      (.mk (qualTag "n" "Amt") [] (.str "12.50") []) =
      (.leaf (.decimal "n" "Amt" (.dec ⟨false, 1250, -2⟩)), Option.none) := by
    unfold valueFromEtree
    rfl
  have hloop : (processChildren c2IdxX c2ElemX c2NodeGood.children).2 = Option.none := by
    show (processChildren c2IdxX c2ElemX
      [.mk (qualTag "n" "Amt") [] (.str "12.50") []]).2 = _
    rw [processChildren_cons]
    show (match valueFromEtree (.leaf (DecimalElement.init "n" "Amt"))
        (.mk (qualTag "n" "Amt") [] (.str "12.50") []) with
      | (cur2, some er) => (setSlot c2ElemX "amount" (some cur2), some er)
      | (cur2, Option.none) =>
          processChildren c2IdxX (setSlot c2ElemX "amount" (some cur2)) []).2 = _
    rw [hv2]
    show (processChildren c2IdxX (setSlot c2ElemX "amount"
      (some (.leaf (.decimal "n" "Amt" (.dec ⟨false, 1250, -2⟩))))) []).2 = _
    rw [processChildren_nil]
  refine ⟨hU.1 ⟨.mk (qualTag "n" "Other2") [] .none [], ?_, rfl⟩, ?_, ?_, ?_⟩
  · simp [c2NodeUnknown, XNode.children]
  · exact hU.2.1 [] (.mk (qualTag "n" "Other2") [] .none []) [] rfl
      (by rw [processChildren_nil]) rfl
  · exact (hG.2.2.2).mpr hloop
  · exact (hG.2.2.1 "note" hc).trans rfl

/-- Updating a slot does not change the declared field list. -/
theorem setSlot_fields (e : Elem) (k : String) (v : Option Value) :
    (setSlot e k v).fields = e.fields := by
  cases e
  rfl

/-- Slot updates at two different names commute. -/
theorem setSlot_comm (e : Elem) (a b : String) (u v : Option Value) (hab : a ≠ b) :
    setSlot (setSlot e a u) b v = setSlot (setSlot e b v) a u := by
  cases e with
  | mk t m f s x =>
      simp only [setSlot, List.map_map]
      have hfun : ((fun p : String × Option Value => if p.1 == b then (p.1, v) else p)
            ∘ fun p : String × Option Value => if p.1 == a then (p.1, u) else p)
          = ((fun p : String × Option Value => if p.1 == a then (p.1, u) else p)
            ∘ fun p : String × Option Value => if p.1 == b then (p.1, v) else p) := by
        funext p
        by_cases hpa : p.1 = a
        · have hpb : p.1 ≠ b := by rw [hpa]; exact hab
          simp [Function.comp, hpa, hpb, hab, Ne.symm hab]
        · by_cases hpb : p.1 = b
          · simp [Function.comp, hpa, hpb, hab, Ne.symm hab]
          · simp [Function.comp, hpa, hpb]
      rw [hfun]

/-- Setattr does not change the declared field list. -/
theorem pySetattr_fields (e : Elem) (k : String) (v : Value) :
    (pySetattr e k v).fields = e.fields := by
  cases e with
  | mk t m f s x =>
      unfold pySetattr
      split
      · exact setSlot_fields _ _ _
      · rfl

/-- Setattr on two different declared field names commutes. -/
theorem pySetattr_comm_declared (e : Elem) (a b : String) (u v : Value) (hab : a ≠ b)
    (ha : e.fields.any (fun f => f.name == a) = true)
    (hb : e.fields.any (fun f => f.name == b) = true) :
    pySetattr (pySetattr e a u) b v = pySetattr (pySetattr e b v) a u := by
  have h1 : pySetattr e a u = setSlot e a (some u) := by simp [pySetattr, ha]
  have h2 : pySetattr e b v = setSlot e b (some v) := by simp [pySetattr, hb]
  have ha2 : (setSlot e b (some v)).fields.any (fun f => f.name == a) = true := by
    rw [setSlot_fields]; exact ha
  have hb2 : (setSlot e a (some u)).fields.any (fun f => f.name == b) = true := by
    rw [setSlot_fields]; exact hb
  rw [h1, h2]
  rw [show pySetattr (setSlot e a (some u)) b v = setSlot (setSlot e a (some u)) b (some v)
    from by simp [pySetattr, hb2]]
  rw [show pySetattr (setSlot e b (some v)) a u = setSlot (setSlot e b (some v)) a (some u)
    from by simp [pySetattr, ha2]]
  exact setSlot_comm e a b (some u) (some v) hab

/-- Updating a slot preserves the slot keys and their order. -/
theorem slots_keys_setSlot (e : Elem) (k : String) (v : Option Value) :
    (setSlot e k v).slots.map Prod.fst = e.slots.map Prod.fst := by
  cases e with
  | mk t m f s x =>
      simp only [setSlot, Elem.slots, List.map_map]
      have hcomp : (Prod.fst ∘ fun p : String × Option Value =>
          if p.1 == k then (p.1, v) else p) = Prod.fst := by
        funext p
        by_cases h : (p.1 == k) = true <;> simp [Function.comp, h]
      rw [hcomp]

/-- Setattr preserves the slot keys and their order. -/
theorem pySetattr_slots_keys (e : Elem) (k : String) (v : Value) :
    (pySetattr e k v).slots.map Prod.fst = e.slots.map Prod.fst := by
  by_cases h : e.fields.any (fun f => f.name == k) = true
  · simp only [pySetattr, h, if_true]
    exact slots_keys_setSlot e k (some v)
  · simp only [pySetattr, h, if_false]
    cases e
    rfl

/-- One assignment step of the keyword loop. -/
theorem assignAll_cons (e : Elem) (p : String × Value) (l : List (String × Value)) :
    assignAll e (p :: l) = assignAll (pySetattr e p.1 p.2) l := rfl

/-- The keyword loop preserves the slot keys and their order. -/
theorem assignAll_slots_keys :
    ∀ (l : List (String × Value)) (e : Elem),
      (assignAll e l).slots.map Prod.fst = e.slots.map Prod.fst := by
  intro l
  induction l with
  | nil => intro e; rfl
  | cons p rest ih =>
      intro e
      rw [assignAll_cons, ih, pySetattr_slots_keys]

/-- Assigning declared fields with pairwise distinct names yields the
same element for any order of the assignment list. -/
theorem assignAll_perm {l1 l2 : List (String × Value)} (h : l1.Perm l2) :
    ∀ e : Elem, (l1.map Prod.fst).Nodup →
      (∀ p ∈ l1, e.fields.any (fun f => f.name == p.1) = true) →
      assignAll e l1 = assignAll e l2 := by
  induction h with
  | nil => intro e _ _; rfl
  | cons p h12 ih =>
      intro e hnd hdecl
      rw [assignAll_cons, assignAll_cons]
      refine ih (pySetattr e p.1 p.2) ?_ ?_
      · simp only [List.map_cons] at hnd
        exact hnd.of_cons
      · intro q hq
        rw [pySetattr_fields]
        exact hdecl q (List.mem_cons_of_mem p hq)
  | swap x y l =>
      intro e hnd hdecl
      rw [assignAll_cons, assignAll_cons, assignAll_cons, assignAll_cons]
      have hyx : y.1 ≠ x.1 := by
        simp only [List.map_cons, List.nodup_cons] at hnd
        intro hcontra
        exact hnd.1 (hcontra ▸ List.mem_cons_self x.1 (l.map Prod.fst))
      have hdy : e.fields.any (fun f => f.name == y.1) = true :=
        hdecl y (List.mem_cons_self y (x :: l))
      have hdx : e.fields.any (fun f => f.name == x.1) = true :=
        hdecl x (List.mem_cons_of_mem y (List.mem_cons_self x l))
      rw [pySetattr_comm_declared e y.1 x.1 y.2 x.2 hyx hdy hdx]
  | trans h1 h2 ih1 ih2 =>
      intro e hnd hdecl
      rw [ih1 e hnd hdecl]
      refine ih2 e ?_ ?_
      · exact ((h1.map Prod.fst).nodup_iff).mp hnd
      · intro p hp
        exact hdecl p (h1.mem_iff.mpr hp)

/-- Keys of the slot mapping built at construction: with pairwise
distinct declared field names, exactly the field names in declaration
order, appended after the accumulator keys. -/
theorem initSlotsGo_keys :
    ∀ (fields : List FieldSchema) (acc : List (String × Option Value)),
      (fields.map FieldSchema.name).Nodup →
      (∀ f ∈ fields, ∀ p ∈ acc, p.1 ≠ f.name) →
      (initSlotsGo acc fields).map Prod.fst
        = acc.map Prod.fst ++ fields.map FieldSchema.name := by
  intro fields
  induction fields with
  | nil => intro acc _ _; simp [initSlotsGo]
  | cons f fs ih =>
      intro acc hnd hfresh
      have hnotin : ¬ acc.any (fun p => p.1 == f.name) = true := by
        simp only [List.any_eq_true, beq_iff_eq, not_exists]
        intro p hp
        exact hfresh f (List.mem_cons_self f fs) p hp.1 hp.2
      show (initSlotsGo (odInsert acc f.name
        (if f.default then some f.defaultValue else Option.none)) fs).map Prod.fst = _
      rw [show odInsert acc f.name (if f.default then some f.defaultValue else Option.none)
        = acc ++ [(f.name, if f.default then some f.defaultValue else Option.none)]
        from by unfold odInsert; rw [if_neg hnotin]]
      rw [ih (acc ++ [(f.name, if f.default then some f.defaultValue else Option.none)]) ?_ ?_]
      · simp [List.map_append]
      · simp only [List.map_cons, List.nodup_cons] at hnd
        exact hnd.2
      · intro g hg p hp
        rcases List.mem_append.mp hp with hpa | hpf
        · exact hfresh g (List.mem_cons_of_mem f hg) p hpa
        · simp only [List.mem_singleton] at hpf
          subst hpf
          simp only [List.map_cons, List.nodup_cons] at hnd
          intro hcontra
          have hfg : f.name = g.name := hcontra
          refine hnd.1 ?_
          rw [hfg]
          exact List.mem_map_of_mem FieldSchema.name hg

/-- C4: serializing an Element emits its populated fields in field
declaration order regardless of the order of the assignments that
populated them: assigning the same declared fields in any order yields
the same element, hence the same encoding; and the slot mapping holds
exactly one key per declared field, in declaration order, materialized
at construction and preserved by every assignment. -/
theorem c4_field_order_invariance
    (tagNs : Option (String × String)) (mAttrs : List (String × PyVal))
    (fields : List FieldSchema) (l1 l2 : List (String × Value))
    (hperm : l1.Perm l2) (hnd : (l1.map Prod.fst).Nodup)
    (hdecl : ∀ p ∈ l1, p.1 ∈ fields.map FieldSchema.name)
    (hfnd : (fields.map FieldSchema.name).Nodup) :
    assignAll (elemInit tagNs mAttrs fields) l1 = assignAll (elemInit tagNs mAttrs fields) l2
    ∧ elemToEtree (assignAll (elemInit tagNs mAttrs fields) l1)
        = elemToEtree (assignAll (elemInit tagNs mAttrs fields) l2)
    ∧ (assignAll (elemInit tagNs mAttrs fields) l1).slots.map Prod.fst
        = fields.map FieldSchema.name := by
  have hdecl2 : ∀ p ∈ l1,
      (elemInit tagNs mAttrs fields).fields.any (fun f => f.name == p.1) = true := by
    intro p hp
    have hmem := hdecl p hp
    rcases List.mem_map.mp hmem with ⟨f, hf, hfn⟩
    simp only [elemInit, Elem.fields, List.any_eq_true, beq_iff_eq]
    exact ⟨f, hf, hfn⟩
  have heq := assignAll_perm hperm (elemInit tagNs mAttrs fields) hnd hdecl2
  refine ⟨heq, by rw [heq], ?_⟩
  rw [assignAll_slots_keys]
  show (initSlots fields).map Prod.fst = fields.map FieldSchema.name
  have hkeys := initSlotsGo_keys fields [] hfnd (by intro f _ p hp; cases hp)
  simpa [initSlots] using hkeys

/-- Witness for C4 at two declared fields assigned in both orders. -/
theorem c4_field_order_invariance_witness :
    assignAll (elemInit Option.none [] c4Fields) c4Asgs1
        = assignAll (elemInit Option.none [] c4Fields) c4Asgs2
    ∧ elemToEtree (assignAll (elemInit Option.none [] c4Fields) c4Asgs1)
        = elemToEtree (assignAll (elemInit Option.none [] c4Fields) c4Asgs2)
    ∧ (assignAll (elemInit Option.none [] c4Fields) c4Asgs1).slots.map Prod.fst
        = c4Fields.map FieldSchema.name :=
  c4_field_order_invariance Option.none [] c4Fields c4Asgs1 c4Asgs2
    (List.Perm.swap _ _ _) (by decide) (by decide) (by decide)

/-- C5: serialize returns exactly the fixed prologue concatenated with
the rendered encoding of the tree of the element, and it invokes the
external validator exactly once, on those bytes, with the fixed schema
version identifier, propagating a validator failure unchanged. -/
theorem c5_serialize {ε : Type} (render : XNode → String)
    (validator : String → String → Except ε Unit) (e : Elem) (tree : XNode)
    (henc : elemToEtree e = .ok tree) :
    (serialize render validator e).2
        = [(xmlPrologue ++ render tree, "ZUGFeRD1p0")]
    ∧ xmlPrologue = "<?xml version=\"1.0\" encoding=\"UTF-8\"?>"
    ∧ (validator (xmlPrologue ++ render tree) "ZUGFeRD1p0" = .ok () →
        (serialize render validator e).1 = .ok (xmlPrologue ++ render tree))
    ∧ (∀ er, validator (xmlPrologue ++ render tree) "ZUGFeRD1p0" = .error er →
        (serialize render validator e).1 = .error (.validation er)) := by
  unfold serialize
  rw [henc]
  refine ⟨rfl, rfl, ?_, ?_⟩
  · intro h
    simp only [h]
  · intro er h
    simp only [h]

/-- Witness for C5 at a concrete element, renderer and validators: the
trace holds exactly one invocation with the produced bytes and the
schema name, a passing validator yields the bytes, and a failing
validator propagates its error. -/
theorem c5_serialize_witness :
    (serialize (fun _ => "<R/>")
        (fun _ _ => (.ok () : Except String Unit))
        (elemInit (some ("a", "Root")) [] [])).2
      = [(xmlPrologue ++ "<R/>", "ZUGFeRD1p0")]
    ∧ (serialize (fun _ => "<R/>")
        (fun _ _ => (.ok () : Except String Unit))
        (elemInit (some ("a", "Root")) [] [])).1
      = .ok (xmlPrologue ++ "<R/>")
    ∧ (serialize (fun _ => "<R/>")
        (fun _ _ => (.error "rejected" : Except String Unit))
        (elemInit (some ("a", "Root")) [] [])).1
      = .error (.validation "rejected") := by
  have henc : elemToEtree (elemInit (some ("a", "Root")) [] [])
      = .ok (.mk (qualTag "a" "Root") [] .none []) := by
    unfold elemToEtree encodeSlots
    rfl
  exact ⟨(c5_serialize _ _ _ _ henc).1, (c5_serialize _ _ _ _ henc).2.2.1 rfl,
    (c5_serialize _ _ _ _ henc).2.2.2 "rejected" rfl⟩

/-- C6: the metaclass registers the Field declarations of a class body
into the field list of the type in declaration order, appended after
the field list inherited from the parent type; the registration is a
pure function of the parent list and the class body, computed once at
type definition, so repeated introspection of the same type always
yields this same list. -/
theorem c6_metaclass_field_registration (parentFields : List FieldSchema)
    (attrs : List (String × ClassAttr)) :
    collectFields parentFields attrs
      = parentFields ++ attrs.filterMap
          (fun p => match p.2 with | .field f => some f | .other => Option.none) := by
  induction attrs generalizing parentFields with
  | nil => simp [collectFields]
  | cons a rest ih =>
      cases a with
      | mk k v =>
          cases v with
          | field f =>
              show collectFields (parentFields ++ [f]) rest = _
              rw [ih (parentFields ++ [f])]
              simp [List.filterMap_cons]
          | other =>
              show collectFields parentFields rest = _
              rw [ih parentFields]
              simp [List.filterMap_cons]

/-- Lookup distributes over one cons cell of an association list. -/
theorem lookupPairs_cons {α : Type} (p : String × α) (rest : List (String × α)) (k : String) :
    lookupPairs (p :: rest) k
      = if (p.1 == k) = true then some p.2 else lookupPairs rest k := by
  by_cases h : (p.1 == k) = true <;> simp [lookupPairs, List.find?, h]

/-- Ordered insertion on a mapping whose key set contains the key is the
in-place update. -/
theorem odInsert_of_any {α : Type} (m : List (String × α)) (k : String) (v : α)
    (h : m.any (fun p => p.1 == k) = true) :
    odInsert m k v = m.map (fun p => if p.1 == k then (p.1, v) else p) := by
  unfold odInsert
  rw [if_pos h]

/-- Ordered insertion of a fresh key appends at the end. -/
theorem odInsert_of_not_any {α : Type} (m : List (String × α)) (k : String) (v : α)
    (h : ¬ m.any (fun p => p.1 == k) = true) :
    odInsert m k v = m ++ [(k, v)] := by
  unfold odInsert
  rw [if_neg h]

/-- Appending an entry with a different key does not change a lookup. -/
theorem lookupPairs_append_single {α : Type} (k k2 : String) (v : α) (hne : k2 ≠ k) :
    ∀ (m : List (String × α)), lookupPairs (m ++ [(k2, v)]) k = lookupPairs m k := by
  intro m
  induction m with
  | nil =>
      have hb : (k2 == k) = false := by simp [hne]
      simp [lookupPairs, List.find?, hb]
  | cons p rest ih =>
      rw [List.cons_append, lookupPairs_cons, lookupPairs_cons]
      by_cases hp : (p.1 == k) = true
      · rw [if_pos hp, if_pos hp]
      · rw [if_neg hp, if_neg hp]
        exact ih

/-- After ordered insertion at a key, lookup at that key yields the
inserted value. -/
theorem lookupPairs_odInsert_self {α : Type} :
    ∀ (m : List (String × α)) (k : String) (v : α),
      lookupPairs (odInsert m k v) k = some v := by
  intro m k v
  induction m with
  | nil =>
      rw [odInsert_of_not_any _ _ _ (by simp)]
      simp [lookupPairs, List.find?]
  | cons p rest ih =>
      by_cases hp : (p.1 == k) = true
      · rw [odInsert_of_any _ _ _ (by simp [List.any_cons, hp])]
        simp only [List.map_cons, hp, if_true]
        rw [lookupPairs_cons]
        simp [hp]
      · cases hr : rest.any (fun q => q.1 == k) with
        | true =>
            rw [odInsert_of_any _ _ _ (by simp [List.any_cons, hr])]
            simp only [List.map_cons]
            rw [show (if (p.1 == k) = true then (p.1, v) else p) = p from by simp [hp]]
            rw [lookupPairs_cons, if_neg hp]
            rw [← odInsert_of_any rest k v hr]
            exact ih
        | false =>
            rw [odInsert_of_not_any _ _ _ (by simp [List.any_cons, hp, hr])]
            rw [List.cons_append, lookupPairs_cons, if_neg hp]
            rw [← odInsert_of_not_any rest k v (by simp [hr])]
            exact ih

/-- Ordered insertion at a different key does not change a lookup. -/
theorem lookupPairs_odInsert_ne {α : Type} (m : List (String × α)) (k k2 : String) (v : α)
    (hne : k2 ≠ k) : lookupPairs (odInsert m k2 v) k = lookupPairs m k := by
  by_cases h : m.any (fun p => p.1 == k2) = true
  · rw [odInsert_of_any _ _ _ h]
    unfold lookupPairs
    rw [List.find?_map]
    have hpred : ((fun p : String × α => p.1 == k) ∘ fun p => if p.1 == k2 then (p.1, v) else p)
        = fun p : String × α => p.1 == k := by
      funext q
      by_cases hq : (q.1 == k2) = true <;> simp [Function.comp, hq]
    rw [hpred]
    cases hf : List.find? (fun p => p.1 == k) m with
    | none => rfl
    | some q =>
        have hqk : q.1 = k := by simpa using List.find?_some hf
        have hq2 : q.1 ≠ k2 := by rw [hqk]; exact fun hh => hne hh.symm
        simp [hq2]
  · rw [odInsert_of_not_any _ _ _ h]
    exact lookupPairs_append_single k k2 v hne m

/-- Folding ordered insertions whose keys all differ from the looked-up
key does not change the lookup. -/
theorem foldl_odInsert_lookup_skip {α : Type} (k : String) :
    ∀ (l : List (String × α)) (acc : List (String × α)),
      (∀ p ∈ l, p.1 ≠ k) →
      lookupPairs (l.foldl (fun x p => odInsert x p.1 p.2) acc) k = lookupPairs acc k := by
  intro l
  induction l with
  | nil => intro acc _; rfl
  | cons p rest ih =>
      intro acc h
      show lookupPairs (rest.foldl (fun x p => odInsert x p.1 p.2) (odInsert acc p.1 p.2)) k
        = lookupPairs acc k
      rw [ih (odInsert acc p.1 p.2) (fun q hq => h q (List.mem_cons_of_mem p hq))]
      exact lookupPairs_odInsert_ne acc k p.1 p.2 (h p (List.mem_cons_self p rest))

/-- Folding ordered insertions over a list with pairwise distinct keys
makes each inserted pair retrievable. -/
theorem foldl_odInsert_lookup_mem {α : Type} (k : String) (v : α) :
    ∀ (l : List (String × α)) (acc : List (String × α)),
      (k, v) ∈ l → (l.map Prod.fst).Nodup →
      lookupPairs (l.foldl (fun x p => odInsert x p.1 p.2) acc) k = some v := by
  intro l
  induction l with
  | nil => intro acc h _; cases h
  | cons p rest ih =>
      intro acc hm hnd
      rcases List.mem_cons.mp hm with heq | hmr
      · show lookupPairs (rest.foldl (fun x p => odInsert x p.1 p.2) (odInsert acc p.1 p.2)) k
          = some v
        have hk : p.1 = k := by rw [← heq]
        have hv : p.2 = v := by rw [← heq]
        have hrest : ∀ q ∈ rest, q.1 ≠ k := by
          simp only [List.map_cons, List.nodup_cons] at hnd
          intro q hq hcontra
          refine hnd.1 ?_
          rw [← hk] at hcontra
          rw [← hcontra]
          exact List.mem_map_of_mem Prod.fst hq
        rw [foldl_odInsert_lookup_skip k rest (odInsert acc p.1 p.2) hrest]
        rw [hk, hv]
        exact lookupPairs_odInsert_self acc k v
      · show lookupPairs (rest.foldl (fun x p => odInsert x p.1 p.2) (odInsert acc p.1 p.2)) k
          = some v
        refine ih (odInsert acc p.1 p.2) hmr ?_
        simp only [List.map_cons, List.nodup_cons] at hnd
        exact hnd.2

/-- Setattr with keys that are never declared field names leaves the
slot mapping and field list alone and accumulates the pairs as ordered
insertions into the plain instance attributes. -/
theorem assignAll_unknown :
    ∀ (kwargs : List (String × Value)) (e : Elem),
      (∀ p ∈ kwargs, ¬ e.fields.any (fun f => f.name == p.1) = true) →
      (assignAll e kwargs).slots = e.slots
      ∧ (assignAll e kwargs).fields = e.fields
      ∧ (assignAll e kwargs).extras
          = kwargs.foldl (fun x p => odInsert x p.1 p.2) e.extras := by
  intro kwargs
  induction kwargs with
  | nil => intro e _; exact ⟨rfl, rfl, rfl⟩
  | cons p rest ih =>
      intro e h
      have hp := h p (List.mem_cons_self p rest)
      cases e with
      | mk t a f s x =>
          have hstep : pySetattr (Elem.mk t a f s x) p.1 p.2
              = Elem.mk t a f s (odInsert x p.1 p.2) := by
            unfold pySetattr
            rw [if_neg hp]
          rw [assignAll_cons, hstep]
          have ih2 := ih (Elem.mk t a f s (odInsert x p.1 p.2))
            (fun q hq => h q (List.mem_cons_of_mem p hq))
          exact ⟨ih2.1, ih2.2.1, ih2.2.2⟩

/-- C10: constructing an Element with keyword arguments assigns every
pair through setattr without checking the key against the declared
field list: for keys naming no declared field, construction succeeds,
the pair is silently accepted as a plain instance attribute and remains
retrievable, and the slot mapping is exactly the one materialized at
construction. -/
theorem c10_unknown_kwargs_accepted
    (tagNs : Option (String × String)) (mAttrs : List (String × PyVal))
    (fields : List FieldSchema) (kwargs : List (String × Value)) (k : String) (v : Value)
    (hmem : (k, v) ∈ kwargs)
    (hunk : ∀ p ∈ kwargs, p.1 ∉ fields.map FieldSchema.name)
    (hnd : (kwargs.map Prod.fst).Nodup) :
    extraLookup (pyInit tagNs mAttrs fields kwargs) k = some v
    ∧ (pyInit tagNs mAttrs fields kwargs).slots = (elemInit tagNs mAttrs fields).slots := by
  have hunk2 : ∀ p ∈ kwargs,
      ¬ (elemInit tagNs mAttrs fields).fields.any (fun f => f.name == p.1) = true := by
    intro p hp
    have hnotin := hunk p hp
    simp only [List.any_eq_true, beq_iff_eq]
    rintro ⟨f, hf, hfn⟩
    exact hnotin (hfn ▸ List.mem_map_of_mem FieldSchema.name hf)
  have ha := assignAll_unknown kwargs (elemInit tagNs mAttrs fields) hunk2
  refine ⟨?_, ha.1⟩
  show lookupPairs (assignAll (elemInit tagNs mAttrs fields) kwargs).extras k = some v
  rw [ha.2.2]
  exact foldl_odInsert_lookup_mem k v kwargs [] hmem hnd

/-- Witness for C10: one keyword pair whose key names no declared field
is accepted and retrievable, with the slots untouched. -/
theorem c10_unknown_kwargs_accepted_witness :
    extraLookup (pyInit Option.none []
        [FieldSchema.mk "price" false (.leaf (.string "n" "P" (.str "")))]
        [("zz", .leaf (.string "n" "Z" (.str "v")))]) "zz"
      = some (.leaf (.string "n" "Z" (.str "v")))
    ∧ (pyInit Option.none []
        [FieldSchema.mk "price" false (.leaf (.string "n" "P" (.str "")))]
        [("zz", .leaf (.string "n" "Z" (.str "v")))]).slots
      = (elemInit Option.none []
        [FieldSchema.mk "price" false (.leaf (.string "n" "P" (.str "")))]).slots :=
  c10_unknown_kwargs_accepted Option.none []
    [FieldSchema.mk "price" false (.leaf (.string "n" "P" (.str "")))]
    [("zz", .leaf (.string "n" "Z" (.str "v")))] "zz" (.leaf (.string "n" "Z" (.str "v")))
    (List.mem_singleton.mpr rfl) (by decide) (by decide)
